import Mathlib

/-!
# GovChat Policy Matching Engine — verification of spec claims

Shallow embedding of the ingestion and retrieval code of the GovChat
repository, plus spec-modelled definitions for the components that exist
only in the specification (Conversation Controller, Question Selector).

Embedded source files:
* `DataGoKrService` (searchPolicies, syncPolicies, upsertPolicy,
  mapExternalData) — external-policy ingestion against a SQL projects table.
* `ProjectService.getProjects` — filtered retrieval over the projects table.
* the K-Startup admin route raw-id construction
  (`item.announcementId || kstartup_timestamp`).

The database is modelled as a list of rows; `CURRENT_TIMESTAMP` and
fresh SERIAL ids are passed as explicit parameters; network / DB failures
are modelled by oracle functions returning `Except`.
-/

set_option autoImplicit false

/-- Raw item from the external listing API, as consumed by
`DataGoKrService.mapExternalData`.  `policyId` is the external identifier;
all other wire fields are optional (absent = `none`; the JS code also treats
an empty string as falsy, which `jsStr` reproduces). -/
structure PolicyData where
  policyId : String
  policyName : Option String
  policyContent : Option String
  organName : Option String
  target : Option String
  supportContent : Option String
  applyPeriod : Option String
deriving DecidableEq, Repr

/-- JS `x || ""` on an optional string: `none` (undefined) becomes `""`;
`some s` evaluates to `s` (when `s = ""` the JS expression also yields `""`,
so `getD` is faithful). -/
def jsStr (v : Option String) : String :=
  v.getD ""

/-- Output of `DataGoKrService.mapExternalData`: the normalized column
values written to the projects table. -/
structure MappedData where
  policy_external_id : String
  title : String
  description : String
  agency : String
  target_audience : String
  support_content : String
  application_period : String
deriving DecidableEq, Repr

/-- `DataGoKrService.mapExternalData` (part_032, lines 142-152). -/
def mapExternalData (p : PolicyData) : MappedData :=
  { policy_external_id := p.policyId
    title := jsStr p.policyName
    description := jsStr p.policyContent
    agency := jsStr p.organName
    target_audience := jsStr p.target
    support_content := jsStr p.supportContent
    application_period := jsStr p.applyPeriod }

/-- One row of the `projects` table (columns referenced by the embedded
queries).  `created_at` / `last_updated` are timestamps as naturals. -/
structure ProjectRow where
  project_id : Nat
  policy_external_id : String
  title : String
  description : String
  agency : String
  target_audience : String
  support_content : String
  application_period : String
  source : String
  active : Bool
  created_at : Nat
  last_updated : Nat
deriving DecidableEq, Repr

/-- Result tag of `upsertPolicy` (`action: "insert" | "update"`). -/
inductive UpsertAction where
  | insert
  | update
deriving DecidableEq, Repr

/-- Return value of `upsertPolicy`: the action taken and
`rows[0]?.project_id` of the RETURNING clause (which can be absent when the
UPDATE matched no row). -/
structure UpsertOutcome where
  action : UpsertAction
  projectId : Option Nat
deriving DecidableEq, Repr

/-- The row created by the INSERT branch of `upsertPolicy`: the mapped
columns with `source = "external"`; columns the statement does not mention
get their schema defaults (`active := true`, `created_at := now`). -/
def sqlInsertRow (m : MappedData) (now freshId : Nat) : ProjectRow :=
  { project_id := freshId
    policy_external_id := m.policy_external_id
    title := m.title
    description := m.description
    agency := m.agency
    target_audience := m.target_audience
    support_content := m.support_content
    application_period := m.application_period
    source := "external"
    active := true
    created_at := now
    last_updated := now }

/-- The per-row effect of the UPDATE branch of `upsertPolicy`: rows whose
`policy_external_id` matches and whose `source` is "external" get the
mapped columns and `last_updated = CURRENT_TIMESTAMP`; all other rows are
untouched. -/
def sqlUpdateRow (m : MappedData) (now : Nat) (r : ProjectRow) : ProjectRow :=
  if r.policy_external_id == m.policy_external_id && r.source == "external" then
    { r with
        title := m.title
        description := m.description
        agency := m.agency
        target_audience := m.target_audience
        support_content := m.support_content
        application_period := m.application_period
        last_updated := now }
  else r

/-- `DataGoKrService.upsertPolicy` (part_032, lines 85-140).

* SELECT project_id FROM projects WHERE policy_external_id = $1
* if a row exists: UPDATE ... WHERE policy_external_id = $7 AND
  source = "external" (`sqlUpdateRow` applied to every row), returning the
  first updated project_id if any;
* else: INSERT the mapped columns with source = "external" (`sqlInsertRow`).

`now` models CURRENT_TIMESTAMP, `freshId` the SERIAL project_id given to an
inserted row. -/
def upsertPolicy (db : List ProjectRow) (p : PolicyData) (now freshId : Nat) :
    List ProjectRow × UpsertOutcome :=
  let m := mapExternalData p
  let existing := db.filter (fun r => r.policy_external_id == m.policy_external_id)
  if existing.isEmpty then
    (db ++ [sqlInsertRow m now freshId], { action := .insert, projectId := some freshId })
  else
    let newDb := db.map (sqlUpdateRow m now)
    let returned :=
      (newDb.filter
        (fun r => r.policy_external_id == m.policy_external_id && r.source == "external")).map
        (fun r => r.project_id)
    (newDb, { action := .update, projectId := returned.head? })

/-- Raw-data id built by the K-Startup admin route
(gov-api-test/route.ts, line 50): `item.announcementId || kstartup_Date.now()`.
`announcementId = none` models an absent field; an empty string is falsy in
JS, so both fall through to the timestamp-based fallback. -/
def kstartupRawId (announcementId : Option String) (now : Nat) : String :=
  match announcementId with
  | some s => if s = "" then "kstartup_" ++ toString now else s
  | none => "kstartup_" ++ toString now

/-- One entry of `syncResults.errors`: the per-policy catch pushes
`{policyId, error}`, the per-keyword catch pushes `{keyword, error}`. -/
inductive SyncErrorEntry where
  | policyErr (policyId : String) (error : String)
  | keywordErr (keyword : String) (error : String)
deriving DecidableEq, Repr

/-- The aggregated summary returned by `DataGoKrService.syncPolicies`. -/
structure SyncResults where
  total : Nat
  inserted : Nat
  updated : Nat
  errors : List SyncErrorEntry
deriving DecidableEq, Repr

/-- The body of the inner per-policy loop of `syncPolicies` (part_032,
lines 52-68): try the upsert; on success bump `total` and `inserted` or
`updated` according to the action; on error push `{policyId, error}` and
continue.  The fallible upsert call is an oracle `u`. -/
def processPolicy (u : PolicyData → Except String UpsertAction)
    (acc : SyncResults) (p : PolicyData) : SyncResults :=
  match u p with
  | .ok a =>
    { acc with
        total := acc.total + 1
        inserted := if a = .insert then acc.inserted + 1 else acc.inserted
        updated := if a = .insert then acc.updated else acc.updated + 1 }
  | .error e => { acc with errors := acc.errors ++ [.policyErr p.policyId e] }

/-- The body of the per-keyword loop of `syncPolicies` (part_032,
lines 48-75): try `searchPolicies keyword`; on success fold the per-policy
loop over the returned page; on error push `{keyword, error}` and continue. -/
def processKeyword (search : String → Except String (List PolicyData))
    (u : PolicyData → Except String UpsertAction)
    (acc : SyncResults) (kw : String) : SyncResults :=
  match search kw with
  | .ok ps => ps.foldl (processPolicy u) acc
  | .error e => { acc with errors := acc.errors ++ [.keywordErr kw e] }

/-- `DataGoKrService.syncPolicies` (part_032, lines 39-83), with the
network search and the DB upsert abstracted as `Except`-returning oracles.
Starts from the zero summary and folds over the keyword list (defaulting
to the four hard-coded Korean keywords). -/
def syncPolicies (search : String → Except String (List PolicyData))
    (u : PolicyData → Except String UpsertAction)
    (keywords : List String := ["청년", "창업", "중소기업", "지원사업"]) : SyncResults :=
  keywords.foldl (processKeyword search u)
    { total := 0, inserted := 0, updated := 0, errors := [] }

/-- Number of policies of a page whose upsert succeeds. -/
def okCount (u : PolicyData → Except String UpsertAction) (ps : List PolicyData) : Nat :=
  (ps.filter (fun p => match u p with | .ok _ => true | .error _ => false)).length

/-- Number of policies of a page whose upsert succeeds with action insert. -/
def insCount (u : PolicyData → Except String UpsertAction) (ps : List PolicyData) : Nat :=
  (ps.filter (fun p => match u p with | .ok .insert => true | _ => false)).length

/-- Number of policies of a page whose upsert succeeds with action update. -/
def updCount (u : PolicyData → Except String UpsertAction) (ps : List PolicyData) : Nat :=
  (ps.filter (fun p => match u p with | .ok .update => true | _ => false)).length

/-- The error entries produced by the failing policies of a page, in order. -/
def errEntries (u : PolicyData → Except String UpsertAction)
    (ps : List PolicyData) : List SyncErrorEntry :=
  ps.filterMap (fun p =>
    match u p with
    | .error e => some (.policyErr p.policyId e)
    | .ok _ => none)

/-- The optional filters accepted by `ProjectService.getProjects`
(projectService.js, lines 8-45): `keyword`, `agency`, `limit`, `offset`.
`none` models an absent property; JS truthiness also skips the clause for
an empty string, a zero limit or a zero offset. -/
structure Filters where
  keyword : Option String
  agency : Option String
  limit : Option Nat
  offset : Option Nat
deriving DecidableEq, Repr

/-- `a = b && takeEq as bs` on character lists: the pattern is an initial
segment of the text. -/
def takeEq : List Char → List Char → Bool
  | [], _ => true
  | _ :: _, [] => false
  | a :: as, b :: bs => a == b && takeEq as bs

/-- The pattern occurs as a contiguous run somewhere in the text
(SQL `text LIKE %pattern%`). -/
def subSearch (pat : List Char) : List Char → Bool
  | [] => takeEq pat []
  | l@(_ :: rest) => takeEq pat l || subSearch pat rest

/-- Characters of a string folded to lower case (ASCII, as `Char.toLower`). -/
def lowerChars (s : String) : List Char :=
  s.toList.map Char.toLower

/-- SQL `hay ILIKE %pat%`: case-insensitive containment. -/
def ilikeContains (hay pat : String) : Bool :=
  subSearch (lowerChars pat) (lowerChars hay)

/-- The WHERE clause built by `getProjects`: `active = TRUE`, plus
`(title ILIKE $k OR description ILIKE $k)` when a truthy keyword is given,
plus `agency = $a` when a truthy agency is given. -/
def rowMatches (f : Filters) (r : ProjectRow) : Bool :=
  r.active &&
  (match f.keyword with
   | none => true
   | some k =>
     if k = "" then true
     else ilikeContains r.title k || ilikeContains r.description k) &&
  (match f.agency with
   | none => true
   | some a => if a = "" then true else r.agency == a)

/-- Insert a row into a list already sorted by `created_at` descending. -/
def insertDesc (r : ProjectRow) : List ProjectRow → List ProjectRow
  | [] => [r]
  | x :: xs => if x.created_at ≤ r.created_at then r :: x :: xs else x :: insertDesc r xs

/-- `ORDER BY created_at DESC` as an insertion sort. -/
def sortByCreatedDesc : List ProjectRow → List ProjectRow
  | [] => []
  | x :: xs => insertDesc x (sortByCreatedDesc xs)

/-- SQL `OFFSET n` when a truthy offset is present (OFFSET is applied
before LIMIT regardless of the textual clause order). -/
def applyOffsetF (o : Option Nat) (l : List ProjectRow) : List ProjectRow :=
  match o with
  | none => l
  | some n => if n = 0 then l else l.drop n

/-- SQL `LIMIT n` when a truthy limit is present. -/
def applyLimitF (o : Option Nat) (l : List ProjectRow) : List ProjectRow :=
  match o with
  | none => l
  | some n => if n = 0 then l else l.take n

/-- `ProjectService.getProjects` (projectService.js, lines 8-45): filter the
projects table by the WHERE clause, order by `created_at` descending, then
apply OFFSET and LIMIT. -/
def getProjects (db : List ProjectRow) (f : Filters) : List ProjectRow :=
  applyLimitF f.limit (applyOffsetF f.offset (sortByCreatedDesc (db.filter (rowMatches f))))

/-- `Q` extends `P` with exactly one additional known field: one of the four
filter fields is newly present in `Q`, and the other three agree. -/
def extendsOne (P Q : Filters) : Prop :=
  (P.keyword = none ∧ Q.keyword ≠ none ∧ Q.agency = P.agency ∧ Q.limit = P.limit ∧ Q.offset = P.offset) ∨
  (P.agency = none ∧ Q.agency ≠ none ∧ Q.keyword = P.keyword ∧ Q.limit = P.limit ∧ Q.offset = P.offset) ∨
  (P.limit = none ∧ Q.limit ≠ none ∧ Q.keyword = P.keyword ∧ Q.agency = P.agency ∧ Q.offset = P.offset) ∨
  (P.offset = none ∧ Q.offset ≠ none ∧ Q.keyword = P.keyword ∧ Q.agency = P.agency ∧ Q.limit = P.limit)

/-- Modelled from the spec: the repository contains no Question Selector
implementation (spec §4.5 only).  One unknown field with its coverage
(fraction of top-N candidates its predicate would partition) and its fixed
sensitivity weight, both rationals. -/
structure FieldInfo where
  name : String
  coverage : ℚ
  weight : ℚ
deriving DecidableEq, Repr

/-- Modelled from the spec: `value(f) = coverage(f) × weight(f)` (§4.5). -/
def fieldValue (f : FieldInfo) : ℚ :=
  f.coverage * f.weight

/-- Strict lexicographic order on character lists (shorter list first on a
common initial segment), written structurally. -/
def lexLt : List Char → List Char → Bool
  | [], [] => false
  | [], _ :: _ => true
  | _ :: _, [] => false
  | a :: as, b :: bs => if a < b then true else if b < a then false else lexLt as bs

/-- Strict lexical order on field names (§4.5 tie-break). -/
def strLtb (s t : String) : Bool :=
  lexLt s.toList t.toList

/-- Modelled from the spec: fold selecting the argmax of `fieldValue` over
the remaining unknown fields, preferring the lexically smaller name on
ties (§4.5 tie-break). -/
def bestField (a : FieldInfo) : List FieldInfo → FieldInfo
  | [] => a
  | b :: rest =>
    bestField
      (if fieldValue a < fieldValue b ∨ (fieldValue b = fieldValue a ∧ strLtb b.name a.name) then b
       else a) rest

/-- Modelled from the spec: the Question Selector (§4.5).  Returns the name
of the unknown field maximizing `value(f)` (ties broken lexically), or
`none` — the exhaustion signal — when there is no unknown field or the
maximal value is below the threshold `eps`. -/
def selectQuestion (unknowns : List FieldInfo) (eps : ℚ) : Option String :=
  match unknowns with
  | [] => none
  | a :: rest =>
    let m := bestField a rest
    if fieldValue m < eps then none else some m.name

/-- Modelled from the spec: configuration of the Conversation Controller
(§4.6) — confidence threshold for the top-1 score, the small-result
threshold, and the turn bound `maxTurns`. -/
structure ConvConfig where
  confidenceThreshold : ℚ
  smallResultThreshold : Nat
  maxTurns : Nat
deriving DecidableEq, Repr

/-- The three conversation states of spec §3. -/
inductive ConvState where
  | COLLECTING
  | CONVERGED
  | EXHAUSTED
deriving DecidableEq, Repr

/-- CONVERGED and EXHAUSTED are the terminal states (§3). -/
def isTerminal : ConvState → Bool
  | .COLLECTING => false
  | .CONVERGED => true
  | .EXHAUSTED => true

/-- Modelled from the spec: what one turn observes from the external
collaborators after the profile merge and re-retrieval (§4.6 steps 1-2) —
the top-1 candidate score, the candidate count, and whether the Question
Selector signals exhaustion. -/
structure TurnInput where
  top1Score : ℚ
  candidateCount : Nat
  selectorExhausted : Bool
deriving DecidableEq, Repr

/-- State carried across turns of one conversation: the finite state and
the turn counter. -/
structure Session where
  state : ConvState
  turnCount : Nat
deriving DecidableEq, Repr

/-- Modelled from the spec: one transition of the Conversation Controller
(§4.6 steps 3-5).  In COLLECTING: converge when the top-1 score reaches the
confidence threshold or the candidate count is at most the small-result
threshold; otherwise exhaust when `turnCount ≥ maxTurns` or the selector
signals exhaustion; otherwise ask the selected question and increment
`turnCount`.  Terminal states absorb. -/
def stepTurn (cfg : ConvConfig) (s : Session) (inp : TurnInput) : Session :=
  match s.state with
  | .CONVERGED => s
  | .EXHAUSTED => s
  | .COLLECTING =>
    if cfg.confidenceThreshold ≤ inp.top1Score ∨ inp.candidateCount ≤ cfg.smallResultThreshold then
      { s with state := .CONVERGED }
    else if cfg.maxTurns ≤ s.turnCount ∨ inp.selectorExhausted then
      { s with state := .EXHAUSTED }
    else
      { s with turnCount := s.turnCount + 1 }

/-- Run the Conversation Controller over a sequence of turn observations. -/
def runConv (cfg : ConvConfig) (s : Session) : List TurnInput → Session
  | [] => s
  | i :: is => runConv cfg (stepTurn cfg s i) is

/-- The session a fresh conversation starts from (first message of a
session, §3 UserProfile lifecycle): COLLECTING with `turnCount = 0`. -/
def initSession : Session :=
  { state := .COLLECTING, turnCount := 0 }

/-- A concrete manually-created project row used as evaluation input. -/
def exampleRow : ProjectRow :=
  { project_id := 1
    policy_external_id := "x"
    title := "Alpha"
    description := "startup aid"
    agency := "A"
    target_audience := ""
    support_content := ""
    application_period := ""
    source := "manual"
    active := true
    created_at := 0
    last_updated := 0 }

/-- A concrete external listing item with every optional field present. -/
def examplePolicy : PolicyData :=
  { policyId := "EXT1"
    policyName := some "Youth grant"
    policyContent := some "grant body"
    organName := some "Agency"
    target := some "youth"
    supportContent := some "money"
    applyPeriod := some "2025" }

section Theorems

/-- C7: every optional wire field that is absent or empty is normalized to
the empty string by `mapExternalData` (never a null value; the mapping is a
total function of the raw item). -/
theorem mapExternalData_tolerates_missing (p : PolicyData) :
    ((p.policyName = none ∨ p.policyName = some "") → (mapExternalData p).title = "") ∧
    ((p.policyContent = none ∨ p.policyContent = some "") → (mapExternalData p).description = "") ∧
    ((p.organName = none ∨ p.organName = some "") → (mapExternalData p).agency = "") ∧
    ((p.target = none ∨ p.target = some "") → (mapExternalData p).target_audience = "") ∧
    ((p.supportContent = none ∨ p.supportContent = some "") → (mapExternalData p).support_content = "") ∧
    ((p.applyPeriod = none ∨ p.applyPeriod = some "") → (mapExternalData p).application_period = "") := by
  refine ⟨?_, ?_, ?_, ?_, ?_, ?_⟩ <;>
    rintro (h | h) <;> simp [mapExternalData, jsStr, h]

/-- Witness for C7: a raw item with all optional fields missing normalizes
to empty strings. -/
theorem mapExternalData_tolerates_missing_witness :
    (mapExternalData ⟨"E1", none, some "", none, none, none, none⟩).title = "" ∧
    (mapExternalData ⟨"E1", none, some "", none, none, none, none⟩).description = "" ∧
    (mapExternalData ⟨"E1", none, some "", none, none, none, none⟩).agency = "" :=
  ⟨(mapExternalData_tolerates_missing _).1 (Or.inl rfl),
   (mapExternalData_tolerates_missing _).2.1 (Or.inr rfl),
   (mapExternalData_tolerates_missing _).2.2.1 (Or.inl rfl)⟩

/-- C6 counterexample: the K-Startup route id is not a deterministic
function of the source item — for an item without `announcementId`, two
runs at different clock values produce different record ids. -/
theorem kstartupRawId_nondeterministic :
    kstartupRawId none 0 = "kstartup_0" ∧ kstartupRawId none 1 = "kstartup_1" ∧
    kstartupRawId none 0 ≠ kstartupRawId none 1 := by
  refine ⟨rfl, rfl, ?_⟩
  decide

/-- C6 amended: for every source item that exposes a (non-empty) external
identifier the computed record id is deterministic — it is the identifier
itself, independent of the clock; `mapExternalData` likewise uses the raw
`policyId` directly as the stored external id.  (No hash is applied, and
items lacking an identifier fall back to a clock-dependent id.) -/
theorem recordId_deterministic_when_identified (s : String) (t u : Nat) (h : s ≠ "") :
    kstartupRawId (some s) t = s ∧
    kstartupRawId (some s) t = kstartupRawId (some s) u ∧
    (∀ p : PolicyData, (mapExternalData p).policy_external_id = p.policyId) := by
  refine ⟨?_, ?_, fun p => rfl⟩ <;> simp [kstartupRawId, h]

/-- Witness for C6 amended: the identifier "A1" yields the same id at two
different clock values. -/
theorem recordId_deterministic_when_identified_witness :
    kstartupRawId (some "A1") 0 = "A1" ∧
    kstartupRawId (some "A1") 0 = kstartupRawId (some "A1") 5 :=
  ⟨(recordId_deterministic_when_identified "A1" 0 5 (by decide)).1,
   (recordId_deterministic_when_identified "A1" 0 5 (by decide)).2.1⟩

/-- Mapping a list with a function that preserves the predicate status of
every element and fixes the elements satisfying the predicate leaves the
filtered sublist unchanged. -/
theorem filter_map_fix {α : Type} (f : α → α) (q : α → Bool) (l : List α)
    (hp : ∀ x, q (f x) = q x) (hid : ∀ x, q x = true → f x = x) :
    (l.map f).filter q = l.filter q := by
  induction l with
  | nil => rfl
  | cons a l ih =>
    simp only [List.map_cons, List.filter_cons, hp a]
    cases hq : q a with
    | true => rw [hid a hq, ih]
    | false => exact ih

/-- C9: the upsert never touches rows whose `source` differs from
"external" — the non-external portion of the table is exactly preserved,
so a manually created record with a matching external id is left with all
of its fields unchanged by re-ingestion. -/
theorem upsertPolicy_frame_non_external (db : List ProjectRow) (p : PolicyData)
    (now freshId : Nat) :
    (upsertPolicy db p now freshId).1.filter (fun r => !(r.source == "external")) =
      db.filter (fun r => !(r.source == "external")) := by
  simp only [upsertPolicy]
  split
  · simp [List.filter_append, sqlInsertRow]
  · refine filter_map_fix _ _ _ (fun x => ?_) (fun x hx => ?_)
    · simp only [sqlUpdateRow]
      split <;> simp
    · have hs : (x.source == "external") = false := by
        revert hx; simp
      simp [sqlUpdateRow, hs]

/-- SQL OFFSET of the empty row set is empty. -/
theorem applyOffsetF_nil (o : Option Nat) : applyOffsetF o [] = [] := by
  cases o <;> simp [applyOffsetF]

/-- SQL LIMIT of the empty row set is empty. -/
theorem applyLimitF_nil (o : Option Nat) : applyLimitF o [] = [] := by
  cases o <;> simp [applyLimitF]

/-- C3 counterexample: with a non-empty table and filters no row satisfies,
`getProjects` returns the empty list — not a non-empty vector-ranked
fallback set. -/
theorem getProjects_fallback_counterexample :
    ([exampleRow] : List ProjectRow) ≠ [] ∧
    (∀ r ∈ [exampleRow], rowMatches ⟨some "zzz", none, none, none⟩ r = false) ∧
    getProjects [exampleRow] ⟨some "zzz", none, none, none⟩ = [] := by
  refine ⟨by decide, by decide, by decide⟩

/-- C3 amended: whenever no record satisfies all of the filters,
`getProjects` returns the empty list (there is no fallback ranking, even
when the table is non-empty). -/
theorem getProjects_empty_when_no_match (db : List ProjectRow) (f : Filters)
    (h : ∀ r ∈ db, rowMatches f r = false) :
    getProjects db f = [] := by
  have hf : db.filter (rowMatches f) = [] := by
    rw [List.filter_eq_nil_iff]
    intro a ha
    simp [h a ha]
  simp [getProjects, hf, sortByCreatedDesc, applyOffsetF_nil, applyLimitF_nil]

/-- Witness for C3 amended: the concrete no-match query on a non-empty
table evaluates to the empty list via the amended theorem. -/
theorem getProjects_empty_when_no_match_witness :
    getProjects [exampleRow] ⟨some "zzz", none, none, none⟩ = [] :=
  getProjects_empty_when_no_match _ _ (by decide)

/-- Mapping with a function that fixes every element of a list leaves the
list unchanged. -/
theorem map_fix {α : Type} (f : α → α) (l : List α) (h : ∀ x ∈ l, f x = x) : l.map f = l := by
  induction l with
  | nil => rfl
  | cons a l ih =>
    simp only [List.map_cons]
    rw [h a (by simp), ih (fun x hx => h x (by simp [hx]))]

/-- C1: ingesting the same external item twice into a table that does not
yet hold it first inserts (action insert) and then updates in place
(action update): after both runs exactly one row carries the external id,
its project id is the one assigned by the first run, its `last_updated` is
the second (later) timestamp, and the second run adds no row. -/
theorem upsertPolicy_idempotent_ingestion (db : List ProjectRow) (p : PolicyData)
    (t1 t2 id1 id2 : Nat)
    (hfresh : db.filter
      (fun r => r.policy_external_id == (mapExternalData p).policy_external_id) = [])
    (_ht : t1 < t2) :
    (upsertPolicy db p t1 id1).2.action = .insert ∧
    (upsertPolicy (upsertPolicy db p t1 id1).1 p t2 id2).2.action = .update ∧
    (upsertPolicy (upsertPolicy db p t1 id1).1 p t2 id2).1.length =
      (upsertPolicy db p t1 id1).1.length ∧
    ((upsertPolicy db p t1 id1).1.filter
        (fun r => r.policy_external_id == (mapExternalData p).policy_external_id)).map
      (fun r => (r.project_id, r.last_updated)) = [(id1, t1)] ∧
    ((upsertPolicy (upsertPolicy db p t1 id1).1 p t2 id2).1.filter
        (fun r => r.policy_external_id == (mapExternalData p).policy_external_id)).map
      (fun r => (r.project_id, r.last_updated)) = [(id1, t2)] := by
  have h1 : upsertPolicy db p t1 id1 =
      (db ++ [sqlInsertRow (mapExternalData p) t1 id1],
       { action := .insert, projectId := some id1 }) := by
    simp [upsertPolicy, hfresh]
  have hq : ∀ r ∈ db,
      (r.policy_external_id == (mapExternalData p).policy_external_id) = false := by
    intro r hr
    have := List.filter_eq_nil_iff.mp hfresh r hr
    simpa using this
  have h2 : (db ++ [sqlInsertRow (mapExternalData p) t1 id1]).filter
      (fun r => r.policy_external_id == (mapExternalData p).policy_external_id) =
      [sqlInsertRow (mapExternalData p) t1 id1] := by
    simp [List.filter_append, hfresh, sqlInsertRow]
  have hmap : db.map (sqlUpdateRow (mapExternalData p) t2) = db := by
    refine map_fix _ _ (fun x hx => ?_)
    simp [sqlUpdateRow, hq x hx]
  have hrow : sqlUpdateRow (mapExternalData p) t2 (sqlInsertRow (mapExternalData p) t1 id1) =
      { sqlInsertRow (mapExternalData p) t1 id1 with last_updated := t2 } := by
    simp [sqlUpdateRow, sqlInsertRow]
  refine ⟨by simp [h1], ?_, ?_, ?_, ?_⟩
  · rw [h1]
    simp [upsertPolicy, h2]
  · rw [h1]
    simp [upsertPolicy, h2]
  · rw [h1, h2]
    simp [sqlInsertRow]
  · rw [h1]
    simp only [upsertPolicy, h2]
    simp only [List.isEmpty_cons, Bool.false_eq_true, if_false]
    simp only [List.map_append, hmap, List.map_cons, List.map_nil, hrow]
    rw [List.filter_append]
    rw [List.filter_eq_nil_iff.mpr (fun a ha => by simp [hq a ha])]
    simp [sqlInsertRow]

/-- Witness for C1: ingesting the same concrete item twice into an empty
table: first run inserts with id 100 at time 1, second run updates the
same row at time 2, leaving exactly one row. -/
theorem upsertPolicy_idempotent_ingestion_witness :
    (upsertPolicy [] examplePolicy 1 100).2.action = .insert ∧
    (upsertPolicy (upsertPolicy [] examplePolicy 1 100).1 examplePolicy 2 200).2.action = .update ∧
    (upsertPolicy (upsertPolicy [] examplePolicy 1 100).1 examplePolicy 2 200).1.length =
      (upsertPolicy [] examplePolicy 1 100).1.length ∧
    ((upsertPolicy [] examplePolicy 1 100).1.filter
        (fun r => r.policy_external_id == (mapExternalData examplePolicy).policy_external_id)).map
      (fun r => (r.project_id, r.last_updated)) = [(100, 1)] ∧
    ((upsertPolicy (upsertPolicy [] examplePolicy 1 100).1 examplePolicy 2 200).1.filter
        (fun r => r.policy_external_id == (mapExternalData examplePolicy).policy_external_id)).map
      (fun r => (r.project_id, r.last_updated)) = [(100, 2)] :=
  upsertPolicy_idempotent_ingestion [] examplePolicy 1 2 100 200 rfl (by decide)

/-- Characterization of the inner per-policy loop: folding a page through
`processPolicy` adds the success count to `total`, the per-action counts to
`inserted` / `updated`, and appends one error entry per failing policy. -/
theorem foldl_processPolicy_spec (u : PolicyData → Except String UpsertAction)
    (ps : List PolicyData) (acc : SyncResults) :
    ps.foldl (processPolicy u) acc =
      { total := acc.total + okCount u ps
        inserted := acc.inserted + insCount u ps
        updated := acc.updated + updCount u ps
        errors := acc.errors ++ errEntries u ps } := by
  induction ps generalizing acc with
  | nil => simp [okCount, insCount, updCount, errEntries]
  | cons p ps ih =>
    simp only [List.foldl_cons, ih]
    rcases hup : u p with e | a
    · simp [processPolicy, hup, okCount, insCount, updCount, errEntries, List.filter_cons,
        List.filterMap_cons]
    · cases a <;>
        simp [processPolicy, hup, okCount, insCount, updCount, errEntries, List.filter_cons,
          List.filterMap_cons] <;> omega

/-- `syncPolicies` on a single keyword whose search succeeds returns
exactly the page counts and the per-policy error entries. -/
theorem syncPolicies_single (search : String → Except String (List PolicyData))
    (u : PolicyData → Except String UpsertAction) (kw : String) (ps : List PolicyData)
    (h : search kw = .ok ps) :
    syncPolicies search u [kw] =
      { total := okCount u ps
        inserted := insCount u ps
        updated := updCount u ps
        errors := errEntries u ps } := by
  simp [syncPolicies, processKeyword, h, foldl_processPolicy_spec]

/-- Every successful upsert is either an insert or an update, so the
success count splits into the two per-action counts. -/
theorem okCount_split (u : PolicyData → Except String UpsertAction) (ps : List PolicyData) :
    okCount u ps = insCount u ps + updCount u ps := by
  induction ps with
  | nil => simp [okCount, insCount, updCount]
  | cons p ps ih =>
    simp only [okCount, insCount, updCount, List.filter_cons] at ih ⊢
    rcases hup : u p with e | a
    · simpa [hup] using ih
    · cases a <;> simp [hup] <;> omega

/-- C8: a record whose upsert fails does not abort the batch — the batch
summary equals the summary of the batch without that record, except that
the failing record contributes exactly one error entry, carrying its
policyId, placed between the error entries of the records before and after
it (so the records after the failure are still processed and counted). -/
theorem syncPolicies_isolates_record_failure
    (search : String → Except String (List PolicyData))
    (u : PolicyData → Except String UpsertAction)
    (kw : String) (ps1 ps2 : List PolicyData) (p : PolicyData) (e : String)
    (hs : search kw = .ok (ps1 ++ p :: ps2)) (hu : u p = .error e) :
    syncPolicies search u [kw] =
      { total := okCount u (ps1 ++ ps2)
        inserted := insCount u (ps1 ++ ps2)
        updated := updCount u (ps1 ++ ps2)
        errors := errEntries u ps1 ++ SyncErrorEntry.policyErr p.policyId e :: errEntries u ps2 } := by
  rw [syncPolicies_single search u kw _ hs]
  simp [okCount, insCount, updCount, errEntries, List.filter_append, List.filterMap_append,
    List.filter_cons, List.filterMap_cons, hu]

/-- Witness for C8: a three-record page whose middle record fails yields
total 2 (both healthy records processed), with one error entry naming the
failing policyId. -/
theorem syncPolicies_isolates_record_failure_witness :
    syncPolicies
      (fun _ => .ok [⟨"g1", none, none, none, none, none, none⟩,
                     ⟨"bad", none, none, none, none, none, none⟩,
                     ⟨"g2", none, none, none, none, none, none⟩])
      (fun q => if q.policyId = "bad" then .error "boom" else .ok .insert) ["k"] =
      { total := 2, inserted := 2, updated := 0,
        errors := [.policyErr "bad" "boom"] } := by
  have h := syncPolicies_isolates_record_failure
    (fun _ => .ok [⟨"g1", none, none, none, none, none, none⟩,
                   ⟨"bad", none, none, none, none, none, none⟩,
                   ⟨"g2", none, none, none, none, none, none⟩])
    (fun q => if q.policyId = "bad" then .error "boom" else .ok .insert)
    "k" [⟨"g1", none, none, none, none, none, none⟩]
    [⟨"g2", none, none, none, none, none, none⟩]
    ⟨"bad", none, none, none, none, none, none⟩ "boom" rfl rfl
  rw [h]
  decide

/-- C10: every sync summary satisfies `total = inserted + updated`, and a
record that fails to upsert changes none of the three counts relative to
the same batch without it — it is recorded only in the errors list. -/
theorem syncPolicies_summary_invariant
    (search : String → Except String (List PolicyData))
    (u : PolicyData → Except String UpsertAction)
    (keywords : List String) :
    (syncPolicies search u keywords).total =
      (syncPolicies search u keywords).inserted + (syncPolicies search u keywords).updated ∧
    (∀ (search2 : String → Except String (List PolicyData)) (kw : String)
       (ps1 ps2 : List PolicyData) (p : PolicyData) (e : String),
       search kw = .ok (ps1 ++ p :: ps2) → search2 kw = .ok (ps1 ++ ps2) → u p = .error e →
       (syncPolicies search u [kw]).total = (syncPolicies search2 u [kw]).total ∧
       (syncPolicies search u [kw]).inserted = (syncPolicies search2 u [kw]).inserted ∧
       (syncPolicies search u [kw]).updated = (syncPolicies search2 u [kw]).updated ∧
       SyncErrorEntry.policyErr p.policyId e ∈ (syncPolicies search u [kw]).errors) := by
  constructor
  · have key : ∀ (kws : List String) (acc : SyncResults),
        acc.total = acc.inserted + acc.updated →
        (kws.foldl (processKeyword search u) acc).total =
          (kws.foldl (processKeyword search u) acc).inserted +
          (kws.foldl (processKeyword search u) acc).updated := by
      intro kws
      induction kws with
      | nil => intro acc h; simpa using h
      | cons kw kws ih =>
        intro acc h
        simp only [List.foldl_cons]
        refine ih _ ?_
        rcases hs : search kw with e2 | ps
        · simpa [processKeyword, hs] using h
        · simp only [processKeyword, hs]
          rw [foldl_processPolicy_spec]
          have := okCount_split u ps
          simp only []
          omega
    have := key keywords { total := 0, inserted := 0, updated := 0, errors := [] } (by simp)
    simpa [syncPolicies] using this
  · intro search2 kw ps1 ps2 p e hs hs2 hu
    rw [syncPolicies_isolates_record_failure search u kw ps1 ps2 p e hs hu,
        syncPolicies_single search2 u kw _ hs2]
    simp

/-- Witness for C10: on the concrete failing batch the invariant
`total = inserted + updated` holds and the failing record appears in the
errors list. -/
theorem syncPolicies_summary_invariant_witness :
    (syncPolicies (fun _ => .ok [⟨"g1", none, none, none, none, none, none⟩,
                     ⟨"bad", none, none, none, none, none, none⟩,
                     ⟨"g2", none, none, none, none, none, none⟩])
      (fun q => if q.policyId = "bad" then .error "boom" else .ok .insert) ["k"]).total =
    (syncPolicies (fun _ => .ok [⟨"g1", none, none, none, none, none, none⟩,
                     ⟨"bad", none, none, none, none, none, none⟩,
                     ⟨"g2", none, none, none, none, none, none⟩])
      (fun q => if q.policyId = "bad" then .error "boom" else .ok .insert) ["k"]).inserted +
    (syncPolicies (fun _ => .ok [⟨"g1", none, none, none, none, none, none⟩,
                     ⟨"bad", none, none, none, none, none, none⟩,
                     ⟨"g2", none, none, none, none, none, none⟩])
      (fun q => if q.policyId = "bad" then .error "boom" else .ok .insert) ["k"]).updated ∧
    SyncErrorEntry.policyErr "bad" "boom" ∈
      (syncPolicies (fun _ => .ok [⟨"g1", none, none, none, none, none, none⟩,
                     ⟨"bad", none, none, none, none, none, none⟩,
                     ⟨"g2", none, none, none, none, none, none⟩])
      (fun q => if q.policyId = "bad" then .error "boom" else .ok .insert) ["k"]).errors := by
  have h := syncPolicies_summary_invariant
    (fun _ => .ok [⟨"g1", none, none, none, none, none, none⟩,
                   ⟨"bad", none, none, none, none, none, none⟩,
                   ⟨"g2", none, none, none, none, none, none⟩])
    (fun q => if q.policyId = "bad" then .error "boom" else .ok .insert) ["k"]
  refine ⟨h.1, ?_⟩
  exact (h.2 (fun _ => .ok [⟨"g1", none, none, none, none, none, none⟩,
                            ⟨"g2", none, none, none, none, none, none⟩]) "k"
    [⟨"g1", none, none, none, none, none, none⟩]
    [⟨"g2", none, none, none, none, none, none⟩]
    ⟨"bad", none, none, none, none, none, none⟩ "boom" rfl rfl rfl).2.2.2

/-- Filtering with a pointwise-stronger predicate yields at most as many
rows. -/
theorem length_filter_le_of_imp {α : Type} (l : List α) (p q : α → Bool)
    (h : ∀ a, q a = true → p a = true) :
    (l.filter q).length ≤ (l.filter p).length := by
  induction l with
  | nil => simp
  | cons a l ih =>
    simp only [List.filter_cons]
    cases hq : q a with
    | true =>
      rw [h a hq]
      simpa using ih
    | false =>
      cases hp : p a <;> simp <;> omega

/-- Sorted insertion adds exactly one row. -/
theorem length_insertDesc (r : ProjectRow) (l : List ProjectRow) :
    (insertDesc r l).length = l.length + 1 := by
  induction l with
  | nil => rfl
  | cons x xs ih =>
    simp only [insertDesc]
    split <;> simp [ih]

/-- ORDER BY preserves the number of rows. -/
theorem length_sortByCreatedDesc (l : List ProjectRow) :
    (sortByCreatedDesc l).length = l.length := by
  induction l with
  | nil => rfl
  | cons x xs ih => simp [sortByCreatedDesc, length_insertDesc, ih]

/-- OFFSET never increases the number of rows. -/
theorem length_applyOffsetF_le (o : Option Nat) (l : List ProjectRow) :
    (applyOffsetF o l).length ≤ l.length := by
  cases o with
  | none => simp [applyOffsetF]
  | some n =>
    simp only [applyOffsetF]
    split <;> simp

/-- LIMIT never increases the number of rows. -/
theorem length_applyLimitF_le (o : Option Nat) (l : List ProjectRow) :
    (applyLimitF o l).length ≤ l.length := by
  cases o with
  | none => simp [applyLimitF]
  | some n =>
    simp only [applyLimitF]
    split <;> simp

/-- OFFSET with the same parameter is monotone in the input length. -/
theorem length_applyOffsetF_mono (o : Option Nat) (xs ys : List ProjectRow)
    (h : xs.length ≤ ys.length) :
    (applyOffsetF o xs).length ≤ (applyOffsetF o ys).length := by
  cases o with
  | none => simpa [applyOffsetF] using h
  | some n =>
    simp only [applyOffsetF]
    split
    · exact h
    · simp only [List.length_drop]
      omega

/-- LIMIT with the same parameter is monotone in the input length. -/
theorem length_applyLimitF_mono (o : Option Nat) (xs ys : List ProjectRow)
    (h : xs.length ≤ ys.length) :
    (applyLimitF o xs).length ≤ (applyLimitF o ys).length := by
  cases o with
  | none => simpa [applyLimitF] using h
  | some n =>
    simp only [applyLimitF]
    split
    · exact h
    · simp only [List.length_take]
      omega

/-- A row matching the WHERE clause with an added keyword filter also
matches the clause without it. -/
theorem rowMatches_imp_kw (P Q : Filters) (r : ProjectRow) (hP : P.keyword = none)
    (hQa : Q.agency = P.agency) (h : rowMatches Q r = true) : rowMatches P r = true := by
  simp only [rowMatches, hP, hQa] at h ⊢
  simp only [Bool.and_eq_true] at h ⊢
  exact ⟨⟨h.1.1, trivial⟩, h.2⟩

/-- A row matching the WHERE clause with an added agency filter also
matches the clause without it. -/
theorem rowMatches_imp_ag (P Q : Filters) (r : ProjectRow) (hP : P.agency = none)
    (hQk : Q.keyword = P.keyword) (h : rowMatches Q r = true) : rowMatches P r = true := by
  simp only [rowMatches, hP, hQk] at h ⊢
  simp only [Bool.and_eq_true] at h ⊢
  exact ⟨⟨h.1.1, h.1.2⟩, trivial⟩

/-- The WHERE clause only reads the keyword and agency filters. -/
theorem rowMatches_congr (P Q : Filters) (hk : Q.keyword = P.keyword)
    (ha : Q.agency = P.agency) : rowMatches Q = rowMatches P := by
  funext r
  simp only [rowMatches, hk, ha]

/-- C2: adding exactly one known filter field to a profile never increases
the number of rows `getProjects` returns — a new keyword or agency adds a
conjunctive WHERE clause, a new limit or offset truncates; each is
non-increasing. -/
theorem getProjects_monotone_extendsOne (db : List ProjectRow) (P Q : Filters)
    (h : extendsOne P Q) :
    (getProjects db Q).length ≤ (getProjects db P).length := by
  rcases h with ⟨hk, _, ha, hl, ho⟩ | ⟨ha, _, hk, hl, ho⟩ | ⟨hl, _, hk, ha, ho⟩ | ⟨ho, _, hk, ha, hl⟩
  · simp only [getProjects, hl, ho]
    refine length_applyLimitF_mono _ _ _ (length_applyOffsetF_mono _ _ _ ?_)
    rw [length_sortByCreatedDesc, length_sortByCreatedDesc]
    exact length_filter_le_of_imp db _ _ (fun r hr => rowMatches_imp_kw P Q r hk ha hr)
  · simp only [getProjects, hl, ho]
    refine length_applyLimitF_mono _ _ _ (length_applyOffsetF_mono _ _ _ ?_)
    rw [length_sortByCreatedDesc, length_sortByCreatedDesc]
    exact length_filter_le_of_imp db _ _ (fun r hr => rowMatches_imp_ag P Q r ha hk hr)
  · simp only [getProjects, ho, rowMatches_congr P Q hk ha, hl]
    simp only [applyLimitF]
    exact length_applyLimitF_le _ _
  · simp only [getProjects, hl, rowMatches_congr P Q hk ha, ho]
    simp only [applyOffsetF]
    exact length_applyLimitF_mono _ _ _ (length_applyOffsetF_le _ _)

/-- Witness for C2: the empty profile extended with the keyword "alp"
returns at most as many rows on a concrete one-row table. -/
theorem getProjects_monotone_extendsOne_witness :
    extendsOne ⟨none, none, none, none⟩ ⟨some "alp", none, none, none⟩ ∧
    (getProjects [exampleRow] ⟨some "alp", none, none, none⟩).length ≤
      (getProjects [exampleRow] ⟨none, none, none, none⟩).length :=
  ⟨Or.inl ⟨rfl, by decide, rfl, rfl, rfl⟩,
   getProjects_monotone_extendsOne [exampleRow] _ _ (Or.inl ⟨rfl, by decide, rfl, rfl, rfl⟩)⟩

/-- Terminal sessions are fixed points of the turn transition. -/
theorem stepTurn_of_terminal (cfg : ConvConfig) (s : Session) (i : TurnInput)
    (h : isTerminal s.state = true) : stepTurn cfg s i = s := by
  cases hs : s.state
  · simp [isTerminal, hs] at h
  · simp [stepTurn, hs]
  · simp [stepTurn, hs]

/-- A run started in a terminal state stays there. -/
theorem runConv_of_terminal (cfg : ConvConfig) (s : Session) (l : List TurnInput)
    (h : isTerminal s.state = true) : runConv cfg s l = s := by
  induction l with
  | nil => rfl
  | cons i l ih => simp [runConv, stepTurn_of_terminal cfg s i h, ih]

/-- One turn never pushes `turnCount` past `maxTurns`: it only increments
when `turnCount < maxTurns` (otherwise the turn exhausts). -/
theorem stepTurn_turnCount_le (cfg : ConvConfig) (s : Session) (i : TurnInput)
    (h : s.turnCount ≤ cfg.maxTurns) : (stepTurn cfg s i).turnCount ≤ cfg.maxTurns := by
  cases hs : s.state <;> simp only [stepTurn, hs]
  · split
    · simpa using h
    · split
      · simpa using h
      · rename_i h1 h2
        simp only [not_or] at h2
        simp only [not_le] at h2
        simp
        omega
  · exact h
  · exact h

/-- The turn counter stays bounded by `maxTurns` along any run. -/
theorem runConv_turnCount_le (cfg : ConvConfig) (l : List TurnInput) :
    ∀ s : Session, s.turnCount ≤ cfg.maxTurns →
      (runConv cfg s l).turnCount ≤ cfg.maxTurns := by
  induction l with
  | nil => intro s h; exact h
  | cons i l ih =>
    intro s h
    exact ih _ (stepTurn_turnCount_le cfg s i h)

/-- A COLLECTING session reaches a terminal state once the remaining
observations outnumber the remaining turn budget: every non-terminal turn
increments the bounded `turnCount`. -/
theorem runConv_reaches (cfg : ConvConfig) (l : List TurnInput) :
    ∀ s : Session, s.state = .COLLECTING → s.turnCount ≤ cfg.maxTurns →
      cfg.maxTurns < s.turnCount + l.length →
      isTerminal (runConv cfg s l).state = true := by
  induction l with
  | nil =>
    intro s _ hle hlt
    simp at hlt
    omega
  | cons i l ih =>
    intro s hs hle hlt
    simp only [runConv]
    by_cases h1 : cfg.confidenceThreshold ≤ i.top1Score ∨ i.candidateCount ≤ cfg.smallResultThreshold
    · rw [runConv_of_terminal]
      · simp [stepTurn, hs, h1, isTerminal]
      · simp [stepTurn, hs, h1, isTerminal]
    · by_cases h2 : cfg.maxTurns ≤ s.turnCount ∨ i.selectorExhausted = true
      · rw [runConv_of_terminal]
        · simp [stepTurn, hs, h1, h2, isTerminal]
        · simp [stepTurn, hs, h1, h2, isTerminal]
      · have hstep : stepTurn cfg s i = { s with turnCount := s.turnCount + 1 } := by
          simp [stepTurn, hs, h1, h2]
        rw [hstep]
        refine ih _ (by simpa using hs) ?_ ?_
        · simp only [not_or, not_le] at h2
          simp
          omega
        · simp at hlt ⊢
          omega

/-- C4: for every sequence of turn observations longer than `maxTurns`,
the Conversation Controller started fresh is in a terminal state
(CONVERGED or EXHAUSTED) after consuming it, and `turnCount` never exceeds
`maxTurns` — COLLECTING cannot repeat forever because each non-terminal
turn increments the bounded counter. -/
theorem conversationController_terminates (cfg : ConvConfig) (inputs : List TurnInput)
    (h : cfg.maxTurns < inputs.length) :
    isTerminal (runConv cfg initSession inputs).state = true ∧
    (runConv cfg initSession inputs).turnCount ≤ cfg.maxTurns :=
  ⟨runConv_reaches cfg inputs initSession rfl (Nat.zero_le _)
     (by simpa [initSession] using h),
   runConv_turnCount_le cfg inputs initSession (Nat.zero_le _)⟩

/-- Witness for C4: with `maxTurns = 2` and three observations that never
converge or signal exhaustion, the controller is terminal with at most 2
question turns asked. -/
theorem conversationController_terminates_witness :
    isTerminal (runConv ⟨1, 0, 2⟩ initSession
      [⟨0, 5, false⟩, ⟨0, 5, false⟩, ⟨0, 5, false⟩]).state = true ∧
    (runConv ⟨1, 0, 2⟩ initSession
      [⟨0, 5, false⟩, ⟨0, 5, false⟩, ⟨0, 5, false⟩]).turnCount ≤ 2 :=
  conversationController_terminates ⟨1, 0, 2⟩ _ (by simp)

/-- Lexicographic strictness: no list precedes itself. -/
theorem lexLt_irrefl (l : List Char) : lexLt l l = false := by
  induction l with
  | nil => rfl
  | cons a l ih => simp [lexLt, ih]

/-- Lexicographic order is transitive. -/
theorem lexLt_trans : ∀ (a b c : List Char),
    lexLt a b = true → lexLt b c = true → lexLt a c = true := by
  intro a
  induction a with
  | nil =>
    intro b c hab hbc
    cases b with
    | nil => simp [lexLt] at hab
    | cons y bs =>
      cases c with
      | nil => simp [lexLt] at hbc
      | cons z cs => simp [lexLt]
  | cons x as ih =>
    intro b c hab hbc
    cases b with
    | nil => simp [lexLt] at hab
    | cons y bs =>
      cases c with
      | nil => simp [lexLt] at hbc
      | cons z cs =>
        simp only [lexLt] at hab hbc ⊢
        rcases lt_trichotomy x y with hxy | hxy | hxy
        · rcases lt_trichotomy y z with hyz | hyz | hyz
          · simp [lt_trans hxy hyz]
          · subst hyz
            simp [hxy]
          · rw [if_neg (lt_asymm hyz), if_pos hyz] at hbc
            exact absurd hbc (by simp)
        · subst hxy
          rw [if_neg (lt_irrefl x)] at hab
          rw [if_neg (lt_irrefl x)] at hab
          rcases lt_trichotomy x z with hyz | hyz | hyz
          · simp [hyz]
          · subst hyz
            rw [if_neg (lt_irrefl x)] at hbc
            rw [if_neg (lt_irrefl x)] at hbc
            rw [if_neg (lt_irrefl x), if_neg (lt_irrefl x)]
            exact ih bs cs hab hbc
          · rw [if_neg (lt_asymm hyz), if_pos hyz] at hbc
            exact absurd hbc (by simp)
        · rw [if_neg (lt_asymm hxy), if_pos hxy] at hab
          exact absurd hab (by simp)

/-- The complement of the lexicographic order is transitive. -/
theorem lexLt_false_trans : ∀ (a b c : List Char),
    lexLt a b = false → lexLt b c = false → lexLt a c = false := by
  intro a
  induction a with
  | nil =>
    intro b c hab hbc
    cases b with
    | nil =>
      cases c with
      | nil => rfl
      | cons z cs => simp [lexLt] at hbc
    | cons y bs => simp [lexLt] at hab
  | cons x as ih =>
    intro b c hab hbc
    cases c with
    | nil => simp [lexLt]
    | cons z cs =>
      cases b with
      | nil => simp [lexLt] at hbc
      | cons y bs =>
        simp only [lexLt] at hab hbc ⊢
        have hyx : ¬ x < y := by
          intro hc
          rw [if_pos hc] at hab
          exact absurd hab (by simp)
        have hzy : ¬ y < z := by
          intro hc
          rw [if_pos hc] at hbc
          exact absurd hbc (by simp)
        have hxz : ¬ x < z := by
          have h1 : y ≤ x := not_lt.mp hyx
          have h2 : z ≤ y := not_lt.mp hzy
          exact not_lt.mpr (le_trans h2 h1)
        rw [if_neg hxz]
        by_cases hzx : z < x
        · rw [if_pos hzx]
        · rw [if_neg hzx]
          have hxz2 : x ≤ z := not_lt.mp hzx
          have hzx2 : z ≤ x := le_trans (not_lt.mp hzy) (not_lt.mp hyx)
          have hxeqz : x = z := le_antisymm hxz2 hzx2
          have hyeqx : y = x := le_antisymm (not_lt.mp hyx) (hxeqz ▸ not_lt.mp hzy)
          rw [if_neg hyx, if_neg (by rw [hyeqx]; exact lt_irrefl x)] at hab
          rw [if_neg hzy, if_neg (by rw [hyeqx, hxeqz]; exact lt_irrefl z)] at hbc
          exact ih bs cs hab hbc

/-- Transitivity of the lexical name order. -/
theorem strLtb_trans (x y z : String) (h1 : strLtb x y = true) (h2 : strLtb y z = true) :
    strLtb x z = true :=
  lexLt_trans x.toList y.toList z.toList h1 h2

/-- Transitivity of the complement of the lexical name order. -/
theorem strLtb_false_trans (x y z : String) (h1 : strLtb x y = false)
    (h2 : strLtb y z = false) : strLtb x z = false :=
  lexLt_false_trans x.toList y.toList z.toList h1 h2

/-- No name lexically precedes itself. -/
theorem strLtb_irrefl (x : String) : strLtb x x = false :=
  lexLt_irrefl x.toList

/-- The argmax fold returns a member of the candidate list whose value is
maximal and whose name is lexically least among the value-maximal fields. -/
theorem bestField_spec : ∀ (rest : List FieldInfo) (a : FieldInfo),
    bestField a rest ∈ a :: rest ∧
    (∀ g ∈ a :: rest, fieldValue g ≤ fieldValue (bestField a rest)) ∧
    (∀ g ∈ a :: rest, fieldValue g = fieldValue (bestField a rest) →
      strLtb g.name (bestField a rest).name = false) := by
  intro rest
  induction rest with
  | nil =>
    intro a
    refine ⟨by simp [bestField], ?_, ?_⟩
    · intro g hg
      simp only [List.mem_singleton] at hg
      subst hg
      simp [bestField]
    · intro g hg _
      simp only [List.mem_singleton] at hg
      subst hg
      simp [bestField, strLtb_irrefl]
  | cons b rest ih =>
    intro a
    simp only [bestField]
    by_cases hcond : fieldValue a < fieldValue b ∨
        (fieldValue b = fieldValue a ∧ strLtb b.name a.name = true)
    · rw [if_pos hcond]
      obtain ⟨m1, m2, m3⟩ := ih b
      have hab : fieldValue a ≤ fieldValue b := by
        rcases hcond with h | ⟨h, _⟩
        · exact le_of_lt h
        · exact le_of_eq h.symm
      refine ⟨?_, ?_, ?_⟩
      · rcases List.mem_cons.mp m1 with h | h <;> simp [h]
      · intro g hg
        rcases List.mem_cons.mp hg with h | h
        · subst h
          exact le_trans hab (m2 b (List.mem_cons_self b rest))
        · exact m2 g h
      · intro g hg heq
        rcases List.mem_cons.mp hg with h | h
        · subst h
          have hbbest : fieldValue b ≤ fieldValue (bestField b rest) :=
            m2 b (List.mem_cons_self b rest)
          have hbb : fieldValue b = fieldValue (bestField b rest) := by
            refine le_antisymm hbbest ?_
            rw [← heq]
            exact hab
          rcases hcond with hlt | ⟨heq2, hlex⟩
          · have hone : fieldValue g = fieldValue b := by
              rw [heq, ← hbb]
            rw [hone] at hlt
            exact absurd hlt (lt_irrefl _)
          · have hb3 : strLtb b.name (bestField b rest).name = false :=
              m3 b (List.mem_cons_self b rest) hbb
            by_contra hcon
            rw [Bool.not_eq_false] at hcon
            have htr := strLtb_trans b.name g.name (bestField b rest).name hlex hcon
            rw [htr] at hb3
            simp at hb3
        · exact m3 g h heq
    · rw [if_neg hcond]
      obtain ⟨m1, m2, m3⟩ := ih a
      push_neg at hcond
      obtain ⟨hba, himp⟩ := hcond
      refine ⟨?_, ?_, ?_⟩
      · rcases List.mem_cons.mp m1 with h | h <;> simp [h]
      · intro g hg
        rcases List.mem_cons.mp hg with h | h
        · rw [h]
          exact m2 a (List.mem_cons_self a rest)
        · rcases List.mem_cons.mp h with h2 | h2
          · rw [h2]
            exact le_trans hba (m2 a (List.mem_cons_self a rest))
          · exact m2 g (List.mem_cons_of_mem a h2)
      · intro g hg heq
        rcases List.mem_cons.mp hg with h | h
        · rw [h]
          rw [h] at heq
          exact m3 a (List.mem_cons_self a rest) heq
        · rcases List.mem_cons.mp h with h2 | h2
          · rw [h2]
            rw [h2] at heq
            have habest : fieldValue a ≤ fieldValue (bestField a rest) :=
              m2 a (List.mem_cons_self a rest)
            have h3 : fieldValue b = fieldValue a := by
              refine le_antisymm hba ?_
              rw [heq]
              exact habest
            have h4 : fieldValue a = fieldValue (bestField a rest) := by
              rw [← h3]
              exact heq
            have hlex := himp h3
            have hbafalse : strLtb b.name a.name = false := by
              cases hh : strLtb b.name a.name
              · rfl
              · exact absurd hh hlex
            have h5 : strLtb a.name (bestField a rest).name = false :=
              m3 a (List.mem_cons_self a rest) h4
            exact strLtb_false_trans b.name a.name _ hbafalse h5
          · exact m3 g (List.mem_cons_of_mem a h2) heq

/-- C5: on a non-empty set of unknown fields the Question Selector returns
the field maximizing `value(f) = coverage(f) x weight(f)` (with lexically
least name among ties, and value at least the threshold), and it signals
exhaustion (`none`) exactly when every unknown field has value below the
threshold. -/
theorem selectQuestion_correct (a : FieldInfo) (rest : List FieldInfo) (eps : ℚ) :
    (∀ n, selectQuestion (a :: rest) eps = some n →
      ∃ f ∈ a :: rest, f.name = n ∧ eps ≤ fieldValue f ∧
        (∀ g ∈ a :: rest, fieldValue g ≤ fieldValue f) ∧
        (∀ g ∈ a :: rest, fieldValue g = fieldValue f → strLtb g.name f.name = false)) ∧
    (selectQuestion (a :: rest) eps = none ↔ ∀ f ∈ a :: rest, fieldValue f < eps) := by
  obtain ⟨m1, m2, m3⟩ := bestField_spec rest a
  constructor
  · intro n hn
    simp only [selectQuestion] at hn
    by_cases h : fieldValue (bestField a rest) < eps
    · rw [if_pos h] at hn
      cases hn
    · rw [if_neg h] at hn
      exact ⟨bestField a rest, m1, Option.some.inj hn, le_of_not_lt h, m2, m3⟩
  · simp only [selectQuestion]
    by_cases h : fieldValue (bestField a rest) < eps
    · rw [if_pos h]
      constructor
      · intro _ f hf
        exact lt_of_le_of_lt (m2 f hf) h
      · intro _
        rfl
    · rw [if_neg h]
      constructor
      · intro hc
        cases hc
      · intro hall
        exact absurd (hall _ m1) h

/-- Witness for C5: with region (coverage 0.8, weight 0.9) and income
(coverage 0.9, weight 0.3) and threshold 1/10, the selector picks region
(0.72 > 0.27). -/
theorem selectQuestion_correct_witness :
    selectQuestion [⟨"region", 0.8, 0.9⟩, ⟨"income", 0.9, 0.3⟩] (1/10) = some "region" ∧
    ∃ f ∈ [(⟨"region", 0.8, 0.9⟩ : FieldInfo), ⟨"income", 0.9, 0.3⟩],
      f.name = "region" ∧ (1/10 : ℚ) ≤ fieldValue f ∧
      (∀ g ∈ [(⟨"region", 0.8, 0.9⟩ : FieldInfo), ⟨"income", 0.9, 0.3⟩],
        fieldValue g ≤ fieldValue f) ∧
      (∀ g ∈ [(⟨"region", 0.8, 0.9⟩ : FieldInfo), ⟨"income", 0.9, 0.3⟩],
        fieldValue g = fieldValue f → strLtb g.name f.name = false) := by
  have heq : selectQuestion [⟨"region", 0.8, 0.9⟩, ⟨"income", 0.9, 0.3⟩] (1/10) =
      some "region" := by
    norm_num [selectQuestion, bestField, fieldValue, strLtb, lexLt]
  exact ⟨heq,
    (selectQuestion_correct ⟨"region", 0.8, 0.9⟩ [⟨"income", 0.9, 0.3⟩] (1/10)).1 "region" heq⟩

end Theorems
